import Mathlib

/-!
Verification development for a shared click-counter service: a Cloudflare
Worker exposing a `/click` write endpoint backed by a counter row, an
append-only `click_batches` ledger and a `turnstile_verified` cache, plus a
client-side batch accumulator and an animated display interpolator.

The definitions below are a shallow embedding of the source:
`handleClick` / `verifyTurnstile` from `worker/src/index.ts`, the batch
sender from `src/App.tsx`, and `useAnimatedCount` (tick / setTarget /
addImmediate) from `src/useAnimatedCount.ts`.  SQL timestamps are modelled
as integer seconds; the external Turnstile fetch is modelled as an
`Except Unit Bool` oracle (transport / parse failure vs. parsed
`{ success }`); JavaScript `Math.round` is modelled by `round` on `ℚ`.
-/

deriving instance DecidableEq for Except

namespace TheButton

/-- One row of the append-only `click_batches` ledger. -/
structure BatchRecord where
  count : Int
  ipHash : String
  country : String
  createdAt : Int
deriving DecidableEq, Repr

/-- The D1 database state: the singleton counter row, the ledger, and the
`turnstile_verified` table (keyed by `ip_hash`). -/
structure DB where
  total : Int
  batches : List BatchRecord
  verified : List (String × Int)
deriving DecidableEq, Repr

/-- Fresh database, as created by `schema.sql`. -/
def emptyDB : DB := ⟨0, [], []⟩

/-- `SELECT COALESCE(SUM(count), 0) FROM click_batches WHERE ip_hash = ?
AND created_at > datetime('now', '-5 seconds')` over a list of rows. -/
def windowSumL : List BatchRecord → String → Int → Int
  | [], _, _ => 0
  | r :: rs, ident, now =>
    (if r.ipHash = ident ∧ now - 5 < r.createdAt then r.count else 0)
      + windowSumL rs ident now

/-- Sliding-window click volume for one identity at time `now`. -/
def windowSum (db : DB) (ident : String) (now : Int) : Int :=
  windowSumL db.batches ident now

/-- `SELECT 1 FROM turnstile_verified WHERE ip_hash = ? AND verified_at >
datetime('now', '-60 seconds')`: the identity passed a presence check
within the last 60 seconds. -/
def recentVerify (db : DB) (ident : String) (now : Int) : Bool :=
  match db.verified.lookup ident with
  | some v => decide (now - 60 < v)
  | none => false

/-- `INSERT OR REPLACE INTO turnstile_verified (ip_hash, verified_at)
VALUES (?, datetime('now'))`. -/
def upsertVerified (db : DB) (ident : String) (now : Int) : DB :=
  { db with verified := (ident, now) :: db.verified.filter (fun p => p.1 ≠ ident) }

/-- The atomic conditional insert: `INSERT INTO click_batches ... SELECT
?, ?, ? WHERE (windowed sum for ip_hash) + ? <= 200`.  Returns the new
database and whether a row was inserted (`meta.changes`). -/
def condInsertBatch (db : DB) (c : Int) (ident country : String) (now : Int) :
    DB × Bool :=
  if windowSum db ident now + c ≤ 200 then
    ({ db with batches := ⟨c, ident, country, now⟩ :: db.batches }, true)
  else (db, false)

/-- `verifyTurnstile` from the worker: POST the token to the siteverify
endpoint inside a try/catch; any transport or parse failure yields
`false`, otherwise the parsed `success` field is returned. -/
def verifyTurnstile (token secret ip : String) (fetchResult : Except Unit Bool) :
    Bool :=
  match token, secret, ip, fetchResult with
  | _, _, _, .error _ => false
  | _, _, _, .ok success => success

/-- Parsed `/click` request body `{ count?, token? }`.  The JSON number is
kept as a rational so that non-integer counts are representable. -/
structure ClickBody where
  count : Option ℚ
  token : Option String
deriving DecidableEq

/-- A `/click` request: body parse result plus the two relevant headers. -/
structure ClickRequest where
  body : Except Unit ClickBody
  cfConnectingIP : Option String
  cfIPCountry : Option String
deriving DecidableEq

/-- The distinguishable `/click` responses. -/
inductive ClickOutcome where
  | invalidJson
  | invalidCount
  | missingToken
  | botDetected
  | rateLimited
  | ok (total : Int)
deriving DecidableEq, Repr

/-- HTTP status code of each outcome. -/
def ClickOutcome.status : ClickOutcome → Nat
  | .invalidJson => 400
  | .invalidCount => 400
  | .missingToken => 400
  | .botDetected => 403
  | .rateLimited => 429
  | .ok _ => 200

/-- `typeof count === "number" && Number.isInteger(count) && 1 ≤ count ≤ 200`. -/
def isValidCount (q : ℚ) : Bool :=
  q.den == 1 && 1 ≤ q.num && q.num ≤ 200

/-- `ip === "127.0.0.1" || ip === "::1" || ip === "unknown"`. -/
def isLocalIP (ip : String) : Bool :=
  ip == "127.0.0.1" || ip == "::1" || ip == "unknown"

/-- The verification gate of `handleClick`: skip for local identities and
recently verified identities; otherwise demand a non-empty token, call
`verifyTurnstile`, and on success record the verification.  Returns the
short-circuiting error outcome or the (possibly updated) database. -/
def verificationGate (db : DB) (now : Int) (ip ipHash secret : String)
    (token : Option String) (ts : Except Unit Bool) : Except ClickOutcome DB :=
  if isLocalIP ip then .ok db
  else if recentVerify db ipHash now then .ok db
  else
    match token with
    | none => .error .missingToken
    | some tok =>
      if tok == "" then .error .missingToken
      else if verifyTurnstile tok secret ip ts then .ok (upsertVerified db ipHash now)
      else .error .botDetected

/-- `handleClick` from the worker, parameterised by the IP-hash function
and by the Turnstile fetch oracle.  Returns the new database state and
the response. -/
def handleClick (hash : String → String) (secret : String) (db : DB)
    (now : Int) (req : ClickRequest) (ts : Except Unit Bool) :
    DB × ClickOutcome :=
  match req.body with
  | .error _ => (db, .invalidJson)
  | .ok body =>
    match body.count with
    | none => (db, .invalidCount)
    | some q =>
      if isValidCount q then
        let c := q.num
        let ip := req.cfConnectingIP.getD "unknown"
        let ipHash := hash ip
        match verificationGate db now ip ipHash secret body.token ts with
        | .error o => (db, o)
        | .ok db1 =>
          let country := req.cfIPCountry.getD "unknown"
          let res := condInsertBatch db1 c ipHash country now
          if res.2 then
            ({ res.1 with total := res.1.total + c }, .ok (res.1.total + c))
          else (res.1, .rateLimited)
      else (db, .invalidCount)

/-- One `/click` invocation: the request, its arrival time, and the
Turnstile oracle for it. -/
structure ClickCall where
  req : ClickRequest
  time : Int
  turnstile : Except Unit Bool
deriving DecidableEq

/-- The count a request would add if accepted (0 for malformed bodies). -/
def reqCount (req : ClickRequest) : Int :=
  match req.body with
  | .ok body =>
    match body.count with
    | some q => q.num
    | none => 0
  | .error _ => 0

/-- Whether a `/click` outcome is the success response. -/
def isOk : ClickOutcome → Bool
  | .ok _ => true
  | _ => false

/-- Whether a request parses and carries a valid count. -/
def validReq (req : ClickRequest) : Bool :=
  match req.body with
  | .ok body =>
    match body.count with
    | some q => isValidCount q
    | none => false
  | .error _ => false

/-- Run a sequence of `/click` invocations, collecting the outcomes. -/
def runClicks (hash : String → String) (secret : String) :
    List ClickCall → DB → DB × List ClickOutcome
  | [], db => (db, [])
  | c :: cs, db =>
    let r := handleClick hash secret db c.time c.req c.turnstile
    let rest := runClicks hash secret cs r.1
    (rest.1, r.2 :: rest.2)

/-- One serialized execution of the atomic conditional insert: the D1
engine executes each SQL statement indivisibly, so any concurrent
interleaving of submissions is observationally a sequence of these. -/
structure Submission where
  ident : String
  count : Int
  country : String
  time : Int
deriving DecidableEq

/-- Apply a serialized sequence of conditional inserts. -/
def applySubmissions (db : DB) (subs : List Submission) : DB :=
  subs.foldl (fun d s => (condInsertBatch d s.count s.ident s.country s.time).1) db

/-- The rate-limit safety property: at any instant not earlier than every
ledger row, no identity's windowed sum exceeds the 200-click cap. -/
def capInvariant (db : DB) : Prop :=
  ∀ ident t, (∀ r ∈ db.batches, r.createdAt ≤ t) → windowSum db ident t ≤ 200

/-- All ledger counts are non-negative (the schema enforces `count > 0`). -/
def nonnegCounts (db : DB) : Prop :=
  ∀ r ∈ db.batches, 0 ≤ r.count

/-- Client accumulator state from `App.tsx`: `pendingRef`,
`rateLimitedUntilRef`, `localDeltaRef` (times in milliseconds). -/
structure ClientState where
  pending : Int
  rateLimitedUntil : Int
  localDelta : Int
deriving DecidableEq, Repr

/-- Outcome of one batch POST as the client distinguishes it. -/
inductive SendResult where
  | ok (total : Int)
  | rateLimited
  | clientError
  | transportError
deriving DecidableEq

/-- One firing of the batch-sender interval in `App.tsx`: skip when the
buffer is empty or a backoff deadline is pending; otherwise take a batch
of at most 200 from the buffer, send it, and handle the result. -/
def sendBatchStep (now : Int) (res : SendResult) (s : ClientState) : ClientState :=
  if s.pending ≤ 0 then s
  else if now < s.rateLimitedUntil then s
  else
    let batch := min s.pending 200
    let s1 : ClientState := { s with pending := s.pending - batch }
    match res with
    | .ok _ => { s1 with localDelta := max 0 (s1.localDelta - batch) }
    | .rateLimited =>
        { s1 with pending := s1.pending + batch, rateLimitedUntil := now + 5000 }
    | .clientError => { s1 with localDelta := max 0 (s1.localDelta - batch) }
    | .transportError => { s1 with pending := s1.pending + batch }

/-- State of `useAnimatedCount`: `displayRef`, `targetRef`,
`initializedRef`, whether a rAF callback is scheduled (`rafRef ≠ 0`), and
the animation anchors `animStartRef`, `animStartDisplayRef`,
`animTargetRef` (times in milliseconds). -/
structure AnimState where
  display : Int
  target : Int
  initialized : Bool
  rafActive : Bool
  animStart : Int
  animStartDisplay : Int
  animTarget : Int
deriving DecidableEq, Repr

/-- The rAF `tick` callback: past the duration (or with no gap) snap the
display up to the target and stop; otherwise advance the display to the
linearly interpolated value, optionally jittered by one, clamped to the
target, and only ever upward. -/
def tick (duration now : Int) (jitter : Bool) (s : AnimState) : AnimState :=
  if s.animTarget - s.animStartDisplay ≤ 0 ∨ duration ≤ now - s.animStart then
    if s.display < s.target then
      { s with display := s.target, rafActive := false }
    else { s with rafActive := false }
  else
    let targetDisplay := s.animStartDisplay +
      round (((s.animTarget - s.animStartDisplay) * (now - s.animStart) : ℚ) / (duration : ℚ))
    let jitteredTarget := targetDisplay + (if jitter then 1 else 0)
    let newDisplay := min jitteredTarget s.target
    if s.display < newDisplay then { s with display := newDisplay } else s

/-- `startAnimation`: reset the animation anchors and ensure the rAF loop
is scheduled. -/
def startAnimation (now fromDisplay toTarget : Int) (s : AnimState) : AnimState :=
  { s with animStart := now, animStartDisplay := fromDisplay,
           animTarget := toTarget, rafActive := true }

/-- `setTarget`: ignore non-increasing targets; on the first call jump
instantly; otherwise animate from the current display to the new target. -/
def setTarget (newTarget now : Int) (s : AnimState) : AnimState :=
  if newTarget ≤ s.target then s
  else if s.initialized then
    startAnimation now s.display newTarget { s with target := newTarget }
  else
    { s with target := newTarget, initialized := true, display := newTarget }

/-- `addImmediate`: apply local clicks instantly to both display and
target and shift the animation anchors so an in-flight animation does not
overshoot. -/
def addImmediate (n : Int) (s : AnimState) : AnimState :=
  { s with target := s.target + n, display := s.display + n, initialized := true,
           animStartDisplay := s.animStartDisplay + n, animTarget := s.target + n }

/-- An event in the life of the interpolator. -/
inductive AnimEvent where
  | set (t now : Int)
  | add (n : Int)
  | tic (now : Int) (jitter : Bool)
deriving DecidableEq

/-- Dispatch one interpolator event. -/
def animStep (duration : Int) : AnimEvent → AnimState → AnimState
  | .set t now, s => setTarget t now s
  | .add n, s => addImmediate n s
  | .tic now j, s => tick duration now j s

/-- An `add` event carries a non-negative amount (local clicks only ever
add a positive number of clicks). -/
def addNonneg : AnimEvent → Bool
  | .add n => decide (0 ≤ n)
  | _ => true

/-- Run a sequence of interpolator events. -/
def runAnim (duration : Int) : List AnimEvent → AnimState → AnimState
  | [], s => s
  | e :: es, s => runAnim duration es (animStep duration e s)

/-- Run a sequence of bare ticks (time, jitter). -/
def runTicks (duration : Int) : List (Int × Bool) → AnimState → AnimState
  | [], s => s
  | p :: ps, s => runTicks duration ps (tick duration p.1 p.2 s)

/-! ## Helper lemmas -/

theorem windowSumL_nonneg (l : List BatchRecord) (ident : String) (now : Int)
    (h : ∀ r ∈ l, 0 ≤ r.count) : 0 ≤ windowSumL l ident now := by
  induction l with
  | nil => simp [windowSumL]
  | cons r rs ih =>
    have hr := h r (by simp)
    have hrs := ih (fun x hx => h x (List.mem_cons_of_mem _ hx))
    simp only [windowSumL]
    split <;> omega

theorem windowSumL_mono (l : List BatchRecord) (ident : String) (now t : Int)
    (hc : ∀ r ∈ l, 0 ≤ r.count) (hb : ∀ r ∈ l, r.createdAt ≤ now) (ht : now ≤ t) :
    windowSumL l ident t ≤ windowSumL l ident now := by
  induction l with
  | nil => simp [windowSumL]
  | cons r rs ih =>
    have hr := hc r (by simp)
    have htail := ih (fun x hx => hc x (List.mem_cons_of_mem _ hx))
      (fun x hx => hb x (List.mem_cons_of_mem _ hx))
    simp only [windowSumL]
    by_cases hp : r.ipHash = ident ∧ t - 5 < r.createdAt
    · have hp2 : r.ipHash = ident ∧ now - 5 < r.createdAt := ⟨hp.1, by omega⟩
      rw [if_pos hp, if_pos hp2]
      omega
    · rw [if_neg hp]
      split <;> omega

theorem condInsertBatch_preserves (db : DB) (c : Int) (ident country : String)
    (now : Int) (hinv : capInvariant db) (hnn : nonnegCounts db)
    (hb : ∀ r ∈ db.batches, r.createdAt ≤ now) (hc : 0 ≤ c) :
    capInvariant (condInsertBatch db c ident country now).1
    ∧ nonnegCounts (condInsertBatch db c ident country now).1
    ∧ ∀ r ∈ (condInsertBatch db c ident country now).1.batches, r.createdAt ≤ now := by
  unfold condInsertBatch
  split
  case isTrue hacc =>
    simp only
    refine ⟨?_, ?_, ?_⟩
    · intro id2 t hall
      have hnowt : now ≤ t := hall ⟨c, ident, country, now⟩ (by simp)
      have hallOld : ∀ r ∈ db.batches, r.createdAt ≤ t :=
        fun r hr => hall r (List.mem_cons_of_mem _ hr)
      have hmono := windowSumL_mono db.batches id2 now t hnn hb hnowt
      have hold := hinv id2 t hallOld
      simp only [windowSum, windowSumL] at hacc hold hmono ⊢
      split <;> rename_i hpred
      · have hident : ident = id2 := hpred.1
        subst hident
        omega
      · omega
    · intro r hr
      rcases List.mem_cons.mp hr with hnew | hold
      · subst hnew; exact hc
      · exact hnn r hold
    · intro r hr
      rcases List.mem_cons.mp hr with hnew | hold
      · subst hnew; exact le_refl now
      · exact hb r hold
  case isFalse =>
    exact ⟨hinv, hnn, hb⟩

theorem applySubmissions_cap (subs : List Submission) (db : DB)
    (hinv : capInvariant db) (hnn : nonnegCounts db)
    (hsorted : subs.Pairwise (fun a b => a.time ≤ b.time))
    (hafter : ∀ s ∈ subs, ∀ r ∈ db.batches, r.createdAt ≤ s.time)
    (hc : ∀ s ∈ subs, 0 ≤ s.count) :
    capInvariant (applySubmissions db subs) := by
  induction subs generalizing db with
  | nil => exact hinv
  | cons s rest ih =>
    have hhead := condInsertBatch_preserves db s.count s.ident s.country s.time
      hinv hnn (hafter s (by simp)) (hc s (by simp))
    obtain ⟨h1, h2, h3⟩ := hhead
    have hpair := List.pairwise_cons.mp hsorted
    show capInvariant (applySubmissions
      (condInsertBatch db s.count s.ident s.country s.time).1 rest)
    exact ih _ h1 h2 hpair.2
      (fun s2 hs2 r hr => le_trans (h3 r hr) (hpair.1 s2 hs2))
      (fun s2 hs2 => hc s2 (List.mem_cons_of_mem _ hs2))

theorem verificationGate_ok (db : DB) (now : Int) (ip ipHash secret : String)
    (token : Option String) (ts : Except Unit Bool) (db1 : DB)
    (h : verificationGate db now ip ipHash secret token ts = .ok db1) :
    db1.batches = db.batches ∧ db1.total = db.total := by
  unfold verificationGate at h
  split at h
  · cases h; exact ⟨rfl, rfl⟩
  · split at h
    · cases h; exact ⟨rfl, rfl⟩
    · cases token with
      | none => cases h
      | some tok =>
        simp only at h
        split at h
        · cases h
        · split at h
          · cases h
            exact ⟨rfl, rfl⟩
          · cases h

/-! ## Claim theorems -/

/-- Claim C1: a batch submission with a valid count from a verified (or
exempt) identity whose sliding-window rate predicate fails has no partial
effect: no ledger row is appended, the counter total is unchanged, and the
caller receives the rate-limited rejection (HTTP 429). -/
theorem rate_limited_no_partial_effect (hash : String → String) (secret : String)
    (db : DB) (now : Int) (req : ClickRequest) (ts : Except Unit Bool)
    (body : ClickBody) (q : ℚ) (db1 : DB)
    (hbody : req.body = .ok body) (hq : body.count = some q)
    (hv : isValidCount q = true)
    (hgate : verificationGate db now (req.cfConnectingIP.getD "unknown")
        (hash (req.cfConnectingIP.getD "unknown")) secret body.token ts = .ok db1)
    (hrate : 200 < windowSum db (hash (req.cfConnectingIP.getD "unknown")) now + q.num) :
    (handleClick hash secret db now req ts).2 = .rateLimited
    ∧ (handleClick hash secret db now req ts).2.status = 429
    ∧ (handleClick hash secret db now req ts).1.batches = db.batches
    ∧ (handleClick hash secret db now req ts).1.total = db.total := by
  obtain ⟨hbat, htot⟩ := verificationGate_ok db now _ _ secret body.token ts db1 hgate
  have hws : windowSum db1 (hash (req.cfConnectingIP.getD "unknown")) now
      = windowSum db (hash (req.cfConnectingIP.getD "unknown")) now := by
    unfold windowSum
    rw [hbat]
  unfold handleClick
  rw [hbody]
  simp only
  rw [hq]
  simp only [hv, if_true, hgate]
  unfold condInsertBatch
  by_cases hcond : windowSum db1 (hash (req.cfConnectingIP.getD "unknown")) now
      + q.num ≤ 200
  · exfalso
    rw [hws] at hcond
    omega
  · rw [if_neg hcond]
    exact ⟨rfl, rfl, hbat, htot⟩

/-- Witness for C1: one batch of 200 already in the window for the local
identity, so a further batch of 1 is rejected with 429 and leaves the
ledger and the total untouched. -/
theorem rate_limited_no_partial_effect_witness :
    (handleClick id "sk" ⟨200, [⟨200, "unknown", "US", 0⟩], []⟩ 0
        ⟨.ok ⟨some 1, none⟩, none, none⟩ (.ok true)).2 = .rateLimited
    ∧ (handleClick id "sk" ⟨200, [⟨200, "unknown", "US", 0⟩], []⟩ 0
        ⟨.ok ⟨some 1, none⟩, none, none⟩ (.ok true)).2.status = 429
    ∧ (handleClick id "sk" ⟨200, [⟨200, "unknown", "US", 0⟩], []⟩ 0
        ⟨.ok ⟨some 1, none⟩, none, none⟩ (.ok true)).1.batches
        = [⟨200, "unknown", "US", 0⟩]
    ∧ (handleClick id "sk" ⟨200, [⟨200, "unknown", "US", 0⟩], []⟩ 0
        ⟨.ok ⟨some 1, none⟩, none, none⟩ (.ok true)).1.total = 200 :=
  rate_limited_no_partial_effect id "sk" ⟨200, [⟨200, "unknown", "US", 0⟩], []⟩ 0
    ⟨.ok ⟨some 1, none⟩, none, none⟩ (.ok true) ⟨some 1, none⟩ 1
    ⟨200, [⟨200, "unknown", "US", 0⟩], []⟩ rfl rfl (by decide) (by decide) (by decide)

/-- Claim C2: the sliding-window check and the ledger insert execute as
one atomic SQL statement, so a concurrent set of submissions is
observationally a serialized sequence of `condInsertBatch` steps; for
every such sequence the accepted windowed ledger volume of each identity
never exceeds the 200-click cap. -/
theorem ledger_window_cap_invariant (db : DB) (subs : List Submission)
    (hinv : capInvariant db) (hnn : nonnegCounts db)
    (hsorted : subs.Pairwise (fun a b => a.time ≤ b.time))
    (hafter : ∀ s ∈ subs, ∀ r ∈ db.batches, r.createdAt ≤ s.time)
    (hc : ∀ s ∈ subs, 0 ≤ s.count) :
    capInvariant (applySubmissions db subs) :=
  applySubmissions_cap subs db hinv hnn hsorted hafter hc

/-- Witness for C2: two 150-click submissions from the same identity one
second apart; the cap invariant holds on the resulting ledger (the second
insert is rejected). -/
theorem ledger_window_cap_invariant_witness :
    windowSum (applySubmissions emptyDB
      [⟨"a", 150, "US", 0⟩, ⟨"a", 150, "US", 1⟩]) "a" 1 ≤ 200 :=
  ledger_window_cap_invariant emptyDB [⟨"a", 150, "US", 0⟩, ⟨"a", 150, "US", 1⟩]
    (by
      intro ident t h
      simp [windowSum, emptyDB, windowSumL])
    (by intro r hr; simp [emptyDB] at hr)
    (by decide)
    (by intro s hs r hr; simp [emptyDB] at hr)
    (by decide)
    "a" 1 (by decide)

theorem verificationGate_error (db : DB) (now : Int) (ip ipHash secret : String)
    (token : Option String) (ts : Except Unit Bool) (o : ClickOutcome)
    (h : verificationGate db now ip ipHash secret token ts = .error o) :
    o = .missingToken ∨ o = .botDetected := by
  unfold verificationGate at h
  split at h
  · cases h
  · split at h
    · cases h
    · cases token with
      | none => cases h; exact Or.inl rfl
      | some tok =>
        simp only at h
        split at h
        · cases h; exact Or.inl rfl
        · split at h
          · cases h
          · cases h; exact Or.inr rfl

theorem isValidCount_pos (q : ℚ) (h : isValidCount q = true) : 1 ≤ q.num := by
  simp only [isValidCount, Bool.and_eq_true, beq_iff_eq, decide_eq_true_eq] at h
  exact h.1.2

theorem condInsertBatch_total (db : DB) (c : Int) (ident country : String)
    (now : Int) : (condInsertBatch db c ident country now).1.total = db.total := by
  unfold condInsertBatch
  split <;> rfl

theorem handleClick_total_mono (hash : String → String) (secret : String)
    (db : DB) (now : Int) (req : ClickRequest) (ts : Except Unit Bool) :
    db.total ≤ (handleClick hash secret db now req ts).1.total := by
  unfold handleClick
  cases hb : req.body with
  | error e => simp
  | ok body =>
    simp only
    cases hq : body.count with
    | none => simp
    | some q =>
      simp only
      by_cases hv : isValidCount q = true
      · simp only [hv, if_true]
        cases hg : verificationGate db now (req.cfConnectingIP.getD "unknown")
            (hash (req.cfConnectingIP.getD "unknown")) secret body.token ts with
        | error o => simp
        | ok db1 =>
          simp only
          have htot := (verificationGate_ok db now _ _ secret body.token ts db1 hg).2
          have hpos := isValidCount_pos q hv
          have hct := condInsertBatch_total db1 q.num
            (hash (req.cfConnectingIP.getD "unknown"))
            (req.cfIPCountry.getD "unknown") now
          cases hc2 : (condInsertBatch db1 q.num
              (hash (req.cfConnectingIP.getD "unknown"))
              (req.cfIPCountry.getD "unknown") now).2 with
          | true =>
            simp only [if_true]

            omega
          | false =>
            simp only [Bool.false_eq_true, if_false]
            omega
      · simp [hv]

theorem handleClick_ok_total (hash : String → String) (secret : String)
    (db : DB) (now : Int) (req : ClickRequest) (ts : Except Unit Bool) :
    ∀ t, (handleClick hash secret db now req ts).2 = .ok t →
      (handleClick hash secret db now req ts).1.total = db.total + reqCount req := by
  unfold handleClick
  cases hb : req.body with
  | error e => intro t ht; cases ht
  | ok body =>
    simp only
    cases hq : body.count with
    | none => intro t ht; cases ht
    | some q =>
      simp only
      by_cases hv : isValidCount q = true
      · simp only [hv, if_true]
        cases hg : verificationGate db now (req.cfConnectingIP.getD "unknown")
            (hash (req.cfConnectingIP.getD "unknown")) secret body.token ts with
        | error o =>
          intro t ht
          rcases verificationGate_error db now _ _ secret body.token ts o hg with ho | ho <;>
            (subst ho; cases ht)
        | ok db1 =>
          simp only
          have htot := (verificationGate_ok db now _ _ secret body.token ts db1 hg).2
          have hct := condInsertBatch_total db1 q.num
            (hash (req.cfConnectingIP.getD "unknown"))
            (req.cfIPCountry.getD "unknown") now
          cases hc2 : (condInsertBatch db1 q.num
              (hash (req.cfConnectingIP.getD "unknown"))
              (req.cfIPCountry.getD "unknown") now).2 with
          | true =>
            simp only [if_true]
            intro t ht

            simp only [reqCount, hb, hq]
            omega
          | false =>
            simp only [Bool.false_eq_true, if_false]
            intro t ht
            cases ht
      · simp only [hv, if_false]
        intro t ht; cases ht

/-- Claim C3: running any sequence of `/click` calls, if every outcome is
the success response then the final counter total equals the initial
total plus the sum of the submitted counts; and regardless of outcomes
the total never decreases across the sequence. -/
theorem total_additive_and_monotone (hash : String → String) (secret : String)
    (calls : List ClickCall) (db : DB) :
    ((∀ o ∈ (runClicks hash secret calls db).2, isOk o = true) →
      (runClicks hash secret calls db).1.total
        = db.total + (calls.map (fun c => reqCount c.req)).sum)
    ∧ db.total ≤ (runClicks hash secret calls db).1.total := by
  induction calls generalizing db with
  | nil =>
    constructor
    · intro _
      simp [runClicks]
    · simp [runClicks]
  | cons c cs ih =>
    simp only [runClicks, List.map_cons, List.sum_cons]
    obtain ⟨ih1, ih2⟩ := ih (handleClick hash secret db c.time c.req c.turnstile).1
    constructor
    · intro hall
      have hhead : isOk (handleClick hash secret db c.time c.req c.turnstile).2 = true :=
        hall _ (List.mem_cons_self _ _)
      obtain ⟨t, ht⟩ : ∃ t,
          (handleClick hash secret db c.time c.req c.turnstile).2 = .ok t := by
        cases hm : (handleClick hash secret db c.time c.req c.turnstile).2 <;>
          simp [isOk, hm] at hhead ⊢
      have hstep := handleClick_ok_total hash secret db c.time c.req c.turnstile t ht
      have htail := ih1 (fun o ho => hall o (List.mem_cons_of_mem _ ho))
      rw [htail, hstep]
      ring
    · exact le_trans (handleClick_total_mono hash secret db c.time c.req c.turnstile) ih2

/-- Witness for C3: two accepted local batches of 5 and 7 clicks from a
fresh database leave the counter at 0 + (5 + 7). -/
theorem total_additive_and_monotone_witness :
    (runClicks id "sk"
      [⟨⟨.ok ⟨some 5, none⟩, none, none⟩, 0, .ok true⟩,
       ⟨⟨.ok ⟨some 7, none⟩, none, none⟩, 1, .ok true⟩] emptyDB).1.total
    = emptyDB.total
      + (([⟨⟨.ok ⟨some 5, none⟩, none, none⟩, 0, .ok true⟩,
           ⟨⟨.ok ⟨some 7, none⟩, none, none⟩, 1, .ok true⟩] : List ClickCall).map
            (fun c => reqCount c.req)).sum :=
  (total_additive_and_monotone id "sk"
    [⟨⟨.ok ⟨some 5, none⟩, none, none⟩, 0, .ok true⟩,
     ⟨⟨.ok ⟨some 7, none⟩, none, none⟩, 1, .ok true⟩] emptyDB).1 (by decide)

theorem animStep_invariant (duration : Int) (e : AnimEvent) (s : AnimState)
    (hinv : s.display ≤ s.target) (hn : addNonneg e = true) :
    (animStep duration e s).display ≤ (animStep duration e s).target
    ∧ s.display ≤ (animStep duration e s).display := by
  cases e with
  | set t now =>
    simp only [animStep]
    unfold setTarget startAnimation
    by_cases h1 : t ≤ s.target
    · rw [if_pos h1]
      exact ⟨hinv, le_refl _⟩
    · rw [if_neg h1]
      by_cases h2 : s.initialized = true
      · rw [if_pos h2]
        exact ⟨by show s.display ≤ t; omega, le_refl _⟩
      · rw [if_neg h2]
        exact ⟨le_refl _, by show s.display ≤ t; omega⟩
  | add n =>
    have hn0 : 0 ≤ n := by
      simpa [addNonneg] using hn
    simp only [animStep]
    unfold addImmediate
    exact ⟨by show s.display + n ≤ s.target + n; omega,
           by show s.display ≤ s.display + n; omega⟩
  | tic now j =>
    simp only [animStep]
    unfold tick
    split
    · split
      · rename_i hlt
        exact ⟨le_refl _, le_of_lt hlt⟩
      · exact ⟨hinv, le_refl _⟩
    · split <;> (dsimp only; split)
      all_goals
        first
          | (rename_i hlt; exact ⟨min_le_right _ _, le_of_lt hlt⟩)
          | exact ⟨hinv, le_refl _⟩

/-- Claim C4: for any sequence of `setTarget`, `addImmediate` (with
non-negative amounts) and `tick` events, starting from any state where
the display does not exceed the target, the display still does not exceed
the target afterwards and the display never decreases.  Instantiating the
start state at each observation point gives the invariant between any two
consecutive observations. -/
theorem display_le_target_and_monotone (duration : Int) (evs : List AnimEvent)
    (s : AnimState) (hinv : s.display ≤ s.target)
    (hadds : ∀ e ∈ evs, addNonneg e = true) :
    (runAnim duration evs s).display ≤ (runAnim duration evs s).target
    ∧ s.display ≤ (runAnim duration evs s).display := by
  induction evs generalizing s with
  | nil => exact ⟨hinv, le_refl _⟩
  | cons e es ih =>
    simp only [runAnim]
    obtain ⟨h1, h2⟩ := animStep_invariant duration e s hinv (hadds e (by simp))
    obtain ⟨h3, h4⟩ := ih (animStep duration e s) h1
      (fun e2 he2 => hadds e2 (List.mem_cons_of_mem _ he2))
    exact ⟨h3, le_trans h2 h4⟩

/-- Witness for C4: a first poll, three local clicks, a jittered tick, a
retargeting poll and a late tick keep the display below the target and
above its starting value. -/
theorem display_le_target_and_monotone_witness :
    (runAnim 2000 [.set 100 0, .add 3, .tic 500 true, .set 200 1000, .tic 1500 false]
        ⟨0, 0, false, false, 0, 0, 0⟩).display
      ≤ (runAnim 2000 [.set 100 0, .add 3, .tic 500 true, .set 200 1000, .tic 1500 false]
        ⟨0, 0, false, false, 0, 0, 0⟩).target
    ∧ (0 : Int) ≤ (runAnim 2000
        [.set 100 0, .add 3, .tic 500 true, .set 200 1000, .tic 1500 false]
        ⟨0, 0, false, false, 0, 0, 0⟩).display :=
  display_le_target_and_monotone 2000
    [.set 100 0, .add 3, .tic 500 true, .set 200 1000, .tic 1500 false]
    ⟨0, 0, false, false, 0, 0, 0⟩ (by decide) (by decide)

theorem tick_fields (duration now : Int) (j : Bool) (s : AnimState) :
    (tick duration now j s).target = s.target
    ∧ (tick duration now j s).animStart = s.animStart := by
  unfold tick
  split
  · split <;> exact ⟨rfl, rfl⟩
  · split <;> (dsimp only; split) <;> exact ⟨rfl, rfl⟩

theorem tick_display_mono (duration now : Int) (j : Bool) (s : AnimState) :
    s.display ≤ (tick duration now j s).display := by
  unfold tick
  split
  · split
    · rename_i hlt
      exact le_of_lt hlt
    · exact le_refl _
  · split <;> (dsimp only; split)
    all_goals
      first
        | (rename_i hlt; exact le_of_lt hlt)
        | exact le_refl _

theorem tick_display_le (duration now : Int) (j : Bool) (s : AnimState)
    (h : s.display ≤ s.target) : (tick duration now j s).display ≤ s.target := by
  unfold tick
  split
  · split
    · exact le_refl _
    · exact h
  · split <;> (dsimp only; split)
    all_goals
      first
        | exact min_le_right _ _
        | exact h

theorem tick_snap (duration now : Int) (j : Bool) (s : AnimState)
    (hinv : s.display ≤ s.target) (helapsed : duration ≤ now - s.animStart) :
    (tick duration now j s).display = s.target := by
  unfold tick
  rw [if_pos (Or.inr helapsed)]
  split
  · rfl
  · rename_i hge
    show s.display = s.target
    omega

theorem runTicks_facts (duration : Int) (tks : List (Int × Bool)) (s : AnimState) :
    (runTicks duration tks s).target = s.target
    ∧ s.display ≤ (runTicks duration tks s).display
    ∧ (s.display ≤ s.target → (runTicks duration tks s).display ≤ s.target)
    ∧ (runTicks duration tks s).animStart = s.animStart := by
  induction tks generalizing s with
  | nil => exact ⟨rfl, le_refl _, fun h => h, rfl⟩
  | cons p ps ih =>
    simp only [runTicks]
    obtain ⟨f1, f2⟩ := tick_fields duration p.1 p.2 s
    obtain ⟨g1, g2, g3, g4⟩ := ih (tick duration p.1 p.2 s)
    refine ⟨by rw [g1, f1], le_trans (tick_display_mono duration p.1 p.2 s) g2, ?_,
      by rw [g4, f2]⟩
    intro h
    have hle : (tick duration p.1 p.2 s).display ≤ (tick duration p.1 p.2 s).target := by
      rw [f1]
      exact tick_display_le duration p.1 p.2 s h
    have hfin := g3 hle
    rw [f1] at hfin
    exact hfin

theorem runTicks_reach (duration t now0 : Int) (tks : List (Int × Bool))
    (s1 : AnimState) (h1 : s1.target = t) (h2 : s1.animStart = now0)
    (h3 : s1.display ≤ t) (hreach : ∃ p ∈ tks, now0 + duration ≤ p.1) :
    (runTicks duration tks s1).display = t := by
  induction tks generalizing s1 with
  | nil => simp at hreach
  | cons p ps ih =>
    simp only [runTicks]
    obtain ⟨f1, f2⟩ := tick_fields duration p.1 p.2 s1
    obtain ⟨q, hq, hle⟩ := hreach
    rcases List.mem_cons.mp hq with heq | hmem
    · subst heq
      have hsnap : (tick duration q.1 q.2 s1).display = t := by
        rw [← h1]
        exact tick_snap duration q.1 q.2 s1 (by rw [h1]; exact h3)
          (by rw [h2]; omega)
      obtain ⟨g1, g2, g3, g4⟩ := runTicks_facts duration ps (tick duration q.1 q.2 s1)
      have hup : (runTicks duration ps (tick duration q.1 q.2 s1)).display
          ≤ (tick duration q.1 q.2 s1).target :=
        g3 (by rw [f1, h1, hsnap])
      rw [f1, h1] at hup
      have hlow := g2
      rw [hsnap] at hlow
      omega
    · apply ih (tick duration p.1 p.2 s1)
      · rw [f1, h1]
      · rw [f2, h2]
      · have := tick_display_le duration p.1 p.2 s1 (by rw [h1]; exact h3)
        rw [h1] at this
        exact this
      · exact ⟨q, hmem, hle⟩

/-- Claim C5: on an initialized interpolator, after `setTarget t` with
`t` above the current target, if the tick loop keeps firing and some tick
arrives at or past the duration bound (and no newer target or local add
intervenes), the display equals `t` after that sequence of ticks. -/
theorem display_reaches_target_within_duration (duration t now0 : Int)
    (s : AnimState) (tks : List (Int × Bool))
    (hinit : s.initialized = true) (hinv : s.display ≤ s.target)
    (ht : s.target < t) (hreach : ∃ p ∈ tks, now0 + duration ≤ p.1) :
    (runTicks duration tks (setTarget t now0 s)).display = t := by
  have hs1 : setTarget t now0 s
      = { s with target := t, animStart := now0, animStartDisplay := s.display,
                 animTarget := t, rafActive := true } := by
    unfold setTarget startAnimation
    rw [if_neg (by omega), if_pos hinit]
  rw [hs1]
  exact runTicks_reach duration t now0 tks _ rfl rfl
    (by show s.display ≤ t; omega) hreach

/-- Witness for C5: target jumps from 100 to 600 at time 0 with a
2000 ms bound; a tick at 1000 ms and one at 2000 ms bring the display to
exactly 600. -/
theorem display_reaches_target_within_duration_witness :
    (runTicks 2000 [(1000, false), (2000, true)]
      (setTarget 600 0 ⟨100, 100, true, false, 0, 0, 0⟩)).display = 600 :=
  display_reaches_target_within_duration 2000 600 0
    ⟨100, 100, true, false, 0, 0, 0⟩ [(1000, false), (2000, true)]
    rfl (by decide) (by decide) (by decide)

/-- Claim C6: `setTarget` with a new target not exceeding the current
target is a no-op: the whole interpolator state — display, target,
initialization flag and every animation-scheduling field — is unchanged. -/
theorem setTarget_le_noop (t now : Int) (s : AnimState) (h : t ≤ s.target) :
    setTarget t now s = s := by
  unfold setTarget
  rw [if_pos h]

/-- Witness for C6: lowering the target from 10 to 5 changes nothing. -/
theorem setTarget_le_noop_witness :
    setTarget 5 99 ⟨10, 10, true, true, 1, 2, 3⟩ = ⟨10, 10, true, true, 1, 2, 3⟩ :=
  setTarget_le_noop 5 99 ⟨10, 10, true, true, 1, 2, 3⟩ (by decide)

/-- Claim C7: for every token, secret and identity input, a transport or
parse failure of the external siteverify call makes `verifyTurnstile`
return `false` (fail closed) instead of propagating the error. -/
theorem verifyTurnstile_fails_closed (token secret ip : String) (e : Unit) :
    verifyTurnstile token secret ip (.error e) = false := rfl

/-- Counterexample for C8: a valid-count submission from the non-exempt
identity 203.0.113.7 with no recent verification and an absent token is
answered with the missing-token response, whose status is 400 — not the
403 the claim asserts. -/
theorem absent_token_status_400_not_403 :
    (handleClick id "sk" emptyDB 100
        ⟨.ok ⟨some 5, none⟩, some "203.0.113.7", none⟩ (.ok false)).2
      = .missingToken
    ∧ (handleClick id "sk" emptyDB 100
        ⟨.ok ⟨some 5, none⟩, some "203.0.113.7", none⟩ (.ok false)).2.status = 400
    ∧ (handleClick id "sk" emptyDB 100
        ⟨.ok ⟨some 5, none⟩, some "203.0.113.7", none⟩ (.ok false)).2.status ≠ 403 := by
  decide

/-- Claim C8 (amended): for a non-exempt, not-recently-verified identity
with valid count, an absent or empty token yields the missing-token
response with status 400, and a present non-empty token that fails
verification yields the bot-detected response with status 403; in every
such case the database is fully unchanged — no ledger row, no total
change, and no verification record. -/
theorem non_exempt_bad_token_rejected (hash : String → String) (secret : String)
    (db : DB) (now : Int) (req : ClickRequest) (ts : Except Unit Bool)
    (body : ClickBody) (q : ℚ)
    (hbody : req.body = .ok body) (hq : body.count = some q)
    (hv : isValidCount q = true)
    (hnl : isLocalIP (req.cfConnectingIP.getD "unknown") = false)
    (hnr : recentVerify db (hash (req.cfConnectingIP.getD "unknown")) now = false) :
    (body.token = none →
        (handleClick hash secret db now req ts).2 = .missingToken
        ∧ (handleClick hash secret db now req ts).2.status = 400
        ∧ (handleClick hash secret db now req ts).1 = db)
    ∧ (body.token = some "" →
        (handleClick hash secret db now req ts).2 = .missingToken
        ∧ (handleClick hash secret db now req ts).2.status = 400
        ∧ (handleClick hash secret db now req ts).1 = db)
    ∧ (∀ tok, body.token = some tok → tok ≠ "" →
        verifyTurnstile tok secret (req.cfConnectingIP.getD "unknown") ts = false →
        (handleClick hash secret db now req ts).2 = .botDetected
        ∧ (handleClick hash secret db now req ts).2.status = 403
        ∧ (handleClick hash secret db now req ts).1 = db) := by
  refine ⟨?_, ?_, ?_⟩
  · intro h0
    have hg : verificationGate db now (req.cfConnectingIP.getD "unknown")
        (hash (req.cfConnectingIP.getD "unknown")) secret body.token ts
        = .error .missingToken := by
      unfold verificationGate
      rw [hnl]
      simp only [Bool.false_eq_true, if_false]
      rw [hnr]
      simp only [Bool.false_eq_true, if_false, h0]
    unfold handleClick
    rw [hbody]
    simp only
    rw [hq]
    simp only [hv, if_true, hg]
    simp [ClickOutcome.status]
  · intro h0
    have hg : verificationGate db now (req.cfConnectingIP.getD "unknown")
        (hash (req.cfConnectingIP.getD "unknown")) secret body.token ts
        = .error .missingToken := by
      unfold verificationGate
      rw [hnl]
      simp only [Bool.false_eq_true, if_false]
      rw [hnr]
      simp only [Bool.false_eq_true, if_false, h0]
      rw [if_pos (by rfl)]
    unfold handleClick
    rw [hbody]
    simp only
    rw [hq]
    simp only [hv, if_true, hg]
    simp [ClickOutcome.status]
  · intro tok htok hne hfail
    have hg : verificationGate db now (req.cfConnectingIP.getD "unknown")
        (hash (req.cfConnectingIP.getD "unknown")) secret body.token ts
        = .error .botDetected := by
      unfold verificationGate
      rw [hnl]
      simp only [Bool.false_eq_true, if_false]
      rw [hnr]
      simp only [Bool.false_eq_true, if_false, htok]
      rw [if_neg (by simpa using hne), hfail]
      simp only [Bool.false_eq_true, if_false]
    unfold handleClick
    rw [hbody]
    simp only
    rw [hq]
    simp only [hv, if_true, hg]
    simp [ClickOutcome.status]

/-- Witness for C8 (amended): the identity 203.0.113.7 presents the token
"bad" which the verification service rejects; the response is the
bot-detected rejection with status 403 and the database is unchanged. -/
theorem non_exempt_bad_token_rejected_witness :
    (handleClick id "sk" emptyDB 100
        ⟨.ok ⟨some 5, some "bad"⟩, some "203.0.113.7", none⟩ (.ok false)).2
      = .botDetected
    ∧ (handleClick id "sk" emptyDB 100
        ⟨.ok ⟨some 5, some "bad"⟩, some "203.0.113.7", none⟩ (.ok false)).2.status
      = 403
    ∧ (handleClick id "sk" emptyDB 100
        ⟨.ok ⟨some 5, some "bad"⟩, some "203.0.113.7", none⟩ (.ok false)).1
      = emptyDB :=
  (non_exempt_bad_token_rejected id "sk" emptyDB 100
    ⟨.ok ⟨some 5, some "bad"⟩, some "203.0.113.7", none⟩ (.ok false)
    ⟨some 5, some "bad"⟩ 5 rfl rfl (by decide) (by decide) (by decide)).2.2
    "bad" rfl (by decide) (by decide)

/-- Counterexample for C9: after a transport error the batch sender puts
the batch back in the buffer, but the backoff deadline is not advanced —
the next interval tick is not gated by any cooldown, contradicting the
claim that every retryable failure enters a cooldown. -/
theorem transport_error_no_cooldown :
    (sendBatchStep 1000 .transportError ⟨5, 0, 5⟩).pending = 5
    ∧ (sendBatchStep 1000 .transportError ⟨5, 0, 5⟩).rateLimitedUntil = 0
    ∧ ¬ 2000 < (sendBatchStep 1000 .transportError ⟨5, 0, 5⟩).rateLimitedUntil := by
  decide

/-- Claim C9 (amended): on a retryable failure (rate-limited response or
transport error) the whole un-sent batch is returned to the pending
buffer — no clicks are discarded and the local delta is untouched; a
cooldown (backoff deadline 5000 ms past the send time) is entered on the
rate-limited response only, while a transport error leaves the backoff
deadline unchanged. -/
theorem retryable_failure_restores_buffer (now : Int) (s : ClientState)
    (res : SendResult) (hp : 0 < s.pending) (hnr : ¬ now < s.rateLimitedUntil)
    (hres : res = .rateLimited ∨ res = .transportError) :
    (sendBatchStep now res s).pending = s.pending
    ∧ (sendBatchStep now res s).localDelta = s.localDelta
    ∧ (res = .rateLimited →
        (sendBatchStep now res s).rateLimitedUntil = now + 5000)
    ∧ (res = .transportError →
        (sendBatchStep now res s).rateLimitedUntil = s.rateLimitedUntil) := by
  unfold sendBatchStep
  rw [if_neg (by omega), if_neg hnr]
  rcases hres with h | h <;> subst h
  · refine ⟨by show s.pending - min s.pending 200 + min s.pending 200 = s.pending; omega,
      rfl, fun _ => rfl, ?_⟩
    intro hc
    cases hc
  · refine ⟨by show s.pending - min s.pending 200 + min s.pending 200 = s.pending; omega,
      rfl, ?_, fun _ => rfl⟩
    intro hc
    cases hc

/-- Witness for C9 (amended): a rate-limited response at time 1000 with 5
pending clicks restores the buffer and sets the cooldown deadline to
6000. -/
theorem retryable_failure_restores_buffer_witness :
    (sendBatchStep 1000 .rateLimited ⟨5, 0, 7⟩).pending = 5
    ∧ (sendBatchStep 1000 .rateLimited ⟨5, 0, 7⟩).localDelta = 7
    ∧ (SendResult.rateLimited = .rateLimited →
        (sendBatchStep 1000 .rateLimited ⟨5, 0, 7⟩).rateLimitedUntil = 1000 + 5000)
    ∧ (SendResult.rateLimited = .transportError →
        (sendBatchStep 1000 .rateLimited ⟨5, 0, 7⟩).rateLimitedUntil = 0) :=
  retryable_failure_restores_buffer 1000 ⟨5, 0, 7⟩ .rateLimited
    (by decide) (by decide) (Or.inl rfl)

/-- Claim C10: a `/click` request with no CF-Connecting-IP header is
treated as the local identity "unknown": the verification step is skipped
(the missing-token and bot-detected responses are impossible whatever the
token), no verification record is ever written, and rate limiting is
applied to the shared identity hash of the literal string "unknown" —
acceptance is decided by that identity's windowed sum and any inserted
ledger row carries that hash. -/
theorem no_ip_header_exempt_shared_identity (hash : String → String)
    (secret : String) (db : DB) (now : Int) (req : ClickRequest)
    (ts : Except Unit Bool) (hip : req.cfConnectingIP = none) :
    ((handleClick hash secret db now req ts).2 ≠ .missingToken
      ∧ (handleClick hash secret db now req ts).2 ≠ .botDetected
      ∧ (handleClick hash secret db now req ts).1.verified = db.verified)
    ∧ (validReq req = true →
        ((handleClick hash secret db now req ts).2 = .rateLimited
          ↔ 200 < windowSum db (hash "unknown") now + reqCount req)
        ∧ ∀ rec ∈ (handleClick hash secret db now req ts).1.batches,
            rec ∉ db.batches → rec.ipHash = hash "unknown") := by
  unfold handleClick
  cases hb : req.body with
  | error e =>
    refine ⟨⟨by simp, by simp, rfl⟩, ?_⟩
    intro hvr
    simp only [validReq, hb] at hvr
    cases hvr
  | ok body =>
    simp only
    cases hq : body.count with
    | none =>
      refine ⟨⟨by simp, by simp, rfl⟩, ?_⟩
      intro hvr
      simp only [validReq, hb, hq] at hvr
      cases hvr
    | some q =>
      simp only
      by_cases hv : isValidCount q = true
      · simp only [hv, if_true, hip, Option.getD_none]
        have hgate : verificationGate db now "unknown" (hash "unknown") secret
            body.token ts = .ok db := by
          unfold verificationGate
          rw [if_pos (by decide)]
        rw [hgate]
        simp only
        unfold condInsertBatch
        by_cases hcap : windowSum db (hash "unknown") now + q.num ≤ 200
        · rw [if_pos hcap]
          refine ⟨⟨by simp, by simp, rfl⟩, ?_⟩
          intro hvr
          simp only [reqCount, hb, hq]
          constructor
          · constructor
            · intro hcon
              cases hcon
            · intro hcon
              exact absurd hcon (by omega)
          intro rec hrec hnot
          rcases List.mem_cons.mp hrec with hnew | hold
          · subst hnew
            rfl
          · exact absurd hold hnot
        · rw [if_neg hcap]
          refine ⟨⟨by simp, by simp, rfl⟩, ?_⟩
          intro hvr
          simp only [reqCount, hb, hq]
          constructor
          · constructor
            · intro hcon
              omega
            · intro hcon
              rfl
          intro rec hrec hnot
          exact absurd hrec hnot
      · simp only [hv, if_false]
        refine ⟨⟨by simp, by simp, rfl⟩, ?_⟩
        intro hvr
        simp only [validReq, hb, hq] at hvr
        exact absurd hvr hv

/-- Witness for C10: a header-less request with a valid count of 3 and no
token from a fresh database is accepted (never 400-missing-token or 403),
writes no verification record, and its ledger row carries the hash of
"unknown". -/
theorem no_ip_header_exempt_shared_identity_witness :
    ((handleClick id "sk" emptyDB 0 ⟨.ok ⟨some 3, none⟩, none, none⟩ (.ok false)).2
        ≠ .missingToken
      ∧ (handleClick id "sk" emptyDB 0 ⟨.ok ⟨some 3, none⟩, none, none⟩ (.ok false)).2
        ≠ .botDetected
      ∧ (handleClick id "sk" emptyDB 0
          ⟨.ok ⟨some 3, none⟩, none, none⟩ (.ok false)).1.verified = emptyDB.verified)
    ∧ (((handleClick id "sk" emptyDB 0 ⟨.ok ⟨some 3, none⟩, none, none⟩ (.ok false)).2
          = .rateLimited
        ↔ 200 < windowSum emptyDB (id "unknown") 0
            + reqCount ⟨.ok ⟨some 3, none⟩, none, none⟩)
      ∧ ∀ rec ∈ (handleClick id "sk" emptyDB 0
          ⟨.ok ⟨some 3, none⟩, none, none⟩ (.ok false)).1.batches,
          rec ∉ emptyDB.batches → rec.ipHash = id "unknown") := by
  have h := no_ip_header_exempt_shared_identity id "sk" emptyDB 0
    ⟨.ok ⟨some 3, none⟩, none, none⟩ (.ok false) rfl
  exact ⟨h.1, h.2 (by decide)⟩

end TheButton
